import Mathlib

/-
Verification of the RRT 2D planner (ros2rrt/rrt2D.py, run_rrt_2D and
publish_path) against its natural-language specification.

The embedding models positions with exact real coordinates, mirroring the
floating-point arithmetic of the source with exact real arithmetic.  The
tree is represented as an arena: the node list in insertion order, each
node storing the index of its parent (the source stores a direct object
reference and a derived children list; the children relation is exactly
the inverse of the parent relation and is recovered from it).
-/

namespace RRT2D

/-- A 2D position, as the 2-component numpy arrays used throughout the source. -/
structure Vec2 where
  x : ℝ
  y : ℝ

/-- Componentwise subtraction, as numpy array subtraction on 2-vectors. -/
def Vec2.sub (a b : Vec2) : Vec2 :=
  ⟨a.x - b.x, a.y - b.y⟩

/-- Euclidean norm of a 2-vector, as np.linalg.norm on a length-2 array. -/
noncomputable def Vec2.norm (v : Vec2) : ℝ :=
  Real.sqrt (v.x ^ 2 + v.y ^ 2)

/-- Conversion of an integer random sample (np.random.randint pair) into the
position array the source builds from it. -/
def Vec2.ofSample (s : ℤ × ℤ) : Vec2 :=
  ⟨(s.1 : ℝ), (s.2 : ℝ)⟩

/-- Modelled from the spec: the TreeNode class of the submodules package is
not under src/; per the data model of the spec a node is a position plus a back
reference to its parent (none for the root) and the derived children list.
In the arena representation the parent is the index of the parent node in
the insertion-order node list. -/
structure TreeNode where
  val : Vec2
  parent : Option Nat

/-- Modelled from the spec: the Circle and Rectangle classes of the
submodules package are not under src/; their fields (x, y, radius for
Circle; x, y, width, height, rotation for Rectangle) are exactly the ones
read by the inline collision test of run_rrt_2D.  The rotation field exists but
is never applied. -/
inductive Obstacle where
  | circle (x y radius : ℝ)
  | rectangle (x y width height rotation : ℝ)

/-- The inline collision test of run_rrt_2D (rrt2D.py lines 102-113):
for a Circle, the Euclidean distance from the point to the obstacle center
is strictly below the radius; for a Rectangle, the point is strictly
inside the axis-aligned open box around the center. -/
noncomputable def collides (o : Obstacle) (p : Vec2) : Prop :=
  match o with
  | .circle ox oy r => (Vec2.sub p ⟨ox, oy⟩).norm < r
  | .rectangle ox oy w h _ =>
      (ox - w / 2 < p.x ∧ p.x < ox + w / 2) ∧ (oy - h / 2 < p.y ∧ p.y < oy + h / 2)

/-- The obstacle loop of run_rrt_2D: the candidate is rejected iff some
obstacle of the configured list reports a collision (the source scans the
list in order with an early break, which decides exactly this predicate). -/
def anyCollision (obs : List Obstacle) (p : Vec2) : Prop :=
  ∃ o ∈ obs, collides o p

/-- The per-run configuration of RRT2DNode: start and goal positions, the
half-extents of the sampling box (map_size, integer as in the source),
node_limit, goal_tolerance, step_size and the obstacle list. -/
structure RunConfig where
  start : Vec2
  goal : Vec2
  mapSize : ℤ × ℤ
  nodeLimit : ℕ
  goalTolerance : ℝ
  stepSize : ℝ
  obstacles : List Obstacle

/-- The sampling bounds of np.random.randint(-map_size, map_size): each
integer coordinate lies in the half-open interval. -/
def sampleInRange (cfg : RunConfig) (s : ℤ × ℤ) : Prop :=
  -cfg.mapSize.1 ≤ s.1 ∧ s.1 < cfg.mapSize.1 ∧ -cfg.mapSize.2 ≤ s.2 ∧ s.2 < cfg.mapSize.2

/-- Outcome of the inner for-loop over node_list (rrt2D.py lines 80-94):
either some visited node was within goal tolerance (its index is returned;
the loop broke there), or the loop completed carrying the running minimum:
index, node, displacement vector to the sample, and distance. -/
inductive ScanResult where
  | goalFound (idx : ℕ)
  | nearest (best : Option (ℕ × TreeNode × Vec2 × ℝ))

open Classical in
/-- The inner for-loop of run_rrt_2D.  For each node, first the goal check
(distance from the node to the goal below goal_tolerance breaks the loop);
otherwise the displacement to the random sample and its norm are compared
against the running minimum (strict <, first node wins ties; the
unconditional source update min_distance = np.min([distance, min_distance]) update is
equivalent to updating the triple only on strict improvement). -/
noncomputable def scanFrom (goal : Vec2) (tol : ℝ) (sample : Vec2) :
    List TreeNode → ℕ → Option (ℕ × TreeNode × Vec2 × ℝ) → ScanResult
  | [], _, best => .nearest best
  | n :: rest, i, best =>
      if (Vec2.sub goal n.val).norm < tol then
        .goalFound i
      else
        match best with
        | none =>
            scanFrom goal tol sample rest (i + 1)
              (some (i, n, Vec2.sub sample n.val, (Vec2.sub sample n.val).norm))
        | some (bi, bn, bv, bd) =>
            if (Vec2.sub sample n.val).norm < bd then
              scanFrom goal tol sample rest (i + 1)
                (some (i, n, Vec2.sub sample n.val, (Vec2.sub sample n.val).norm))
            else
              scanFrom goal tol sample rest (i + 1) (some (bi, bn, bv, bd))

/-- Outcome of one iteration of the while-loop body: either the run
completed (goal node appended, break) or it continues growing with a
possibly extended node list. -/
inductive StepResult where
  | succeeded (nodes : List TreeNode)
  | growing (nodes : List TreeNode)

/-- The node list carried by a step outcome. -/
def StepResult.nodesOfStep : StepResult → List TreeNode
  | .succeeded ns => ns
  | .growing ns => ns

open Classical in
/-- One iteration of the while-loop body of run_rrt_2D (lines 73-117),
after the random sample has been drawn: scan the node list; on a goal hit
append a node at exactly the goal position as a child of the hit node and
complete; otherwise, when the minimum distance is nonzero, steer from the
nearest node one step_size along the unit displacement vector toward the
sample and append the candidate unless it collides with some obstacle. -/
noncomputable def growStep (cfg : RunConfig) (sample : Vec2) (nodes : List TreeNode) :
    StepResult :=
  match scanFrom cfg.goal cfg.goalTolerance sample nodes 0 none with
  | .goalFound i => .succeeded (nodes ++ [⟨cfg.goal, some i⟩])
  | .nearest none => .growing nodes
  | .nearest (some (i, minNode, v, d)) =>
      if d ≠ 0 then
        if anyCollision cfg.obstacles
            ⟨minNode.val.x + v.x / d * cfg.stepSize,
             minNode.val.y + v.y / d * cfg.stepSize⟩ then
          .growing nodes
        else
          .growing (nodes ++
            [⟨⟨minNode.val.x + v.x / d * cfg.stepSize,
               minNode.val.y + v.y / d * cfg.stepSize⟩, some i⟩])
      else
        .growing nodes

/-- The single failure kind of the growth loop: the node list reached
node_limit without the goal being attached (the Path-not-found exit). -/
inductive FailReason where
  | nodeLimitExhausted

/-- Result of a terminated run: the completed node list on success, or the
node list at exhaustion on failure. -/
inductive RunResult where
  | success (nodes : List TreeNode)
  | failure (reason : FailReason) (nodes : List TreeNode)

/-- The node list carried by a run result. -/
def RunResult.nodesOf : RunResult → List TreeNode
  | .success ns => ns
  | .failure _ ns => ns

/-- The while-loop of run_rrt_2D, with an explicit iteration budget: fuel
counts loop iterations and the call returns none when the budget is spent
with the loop still running.  k indexes the random-sample stream; the loop
condition is len(node_list) < node_limit, checked before each body. -/
noncomputable def runLoop (cfg : RunConfig) (stream : ℕ → ℤ × ℤ) :
    ℕ → ℕ → List TreeNode → Option RunResult
  | 0, _, _ => none
  | fuel + 1, k, nodes =>
      if nodes.length < cfg.nodeLimit then
        match growStep cfg (Vec2.ofSample (stream k)) nodes with
        | .succeeded ns => some (.success ns)
        | .growing ns => runLoop cfg stream fuel (k + 1) ns
      else
        some (.failure .nodeLimitExhausted nodes)

/-- run_rrt_2D as a whole: start from the singleton list holding the root
node at the start position (parent None) and run the while-loop, consuming
the given stream of integer random samples. -/
noncomputable def runPlanner (cfg : RunConfig) (stream : ℕ → ℤ × ℤ) (fuel : ℕ) :
    Option RunResult :=
  runLoop cfg stream fuel 0 [⟨cfg.start, none⟩]

/-- The parent-link walk of publish_path (rrt2D.py lines 213-222): starting
at an index, while the node there has a parent, emit its position and move
to the parent.  fuel bounds the walk; for a well-parented list a budget of
the list length is never exhausted. -/
def walkPath (ns : List TreeNode) : ℕ → ℕ → List Vec2
  | 0, _ => []
  | fuel + 1, i =>
      match ns.get? i with
      | none => []
      | some n =>
          match n.parent with
          | none => []
          | some j => n.val :: walkPath ns fuel j

/-- Path extraction of publish_path: walk parent links starting from the
last element of the node list (node_list[-1]).  The loop guard
while current_node.parent means the position of the root is never emitted. -/
def extractPath (ns : List TreeNode) : List Vec2 :=
  walkPath ns ns.length (ns.length - 1)

/-! ### Concrete configurations

Configuration A: the root is already within goal tolerance, so the very
first scan attaches the goal node to the root (the shape of scenario A
of the spec).  Configuration B: a rectangle covering the whole map, so every
candidate extension collides and no iteration ever changes the tree (the
shape of scenario B of the spec).  Configuration D: two growth steps along the
x-axis and then a goal hit, where the goal itself lies inside a rectangle
obstacle.  Configuration E: a tiny map with a step size far larger than
the map, so the accepted candidate leaves the sampling region. -/

noncomputable def cfgA : RunConfig :=
  ⟨⟨0, 0⟩, ⟨3, 0⟩, (10, 10), 100, 5, 1, []⟩

def streamA : ℕ → ℤ × ℤ := fun _ => (1, 1)

noncomputable def nodesA : List TreeNode :=
  [⟨⟨0, 0⟩, none⟩, ⟨⟨3, 0⟩, some 0⟩]

noncomputable def cfgB : RunConfig :=
  ⟨⟨0, 0⟩, ⟨4, 0⟩, (10, 10), 5, 1 / 2, 1, [.rectangle 0 0 1000 1000 0]⟩

def streamB : ℕ → ℤ × ℤ := fun _ => (1, 0)

noncomputable def cfgD : RunConfig :=
  ⟨⟨0, 0⟩, ⟨20, 0⟩, (100, 100), 10, 9, 7, [.rectangle 20 0 6 6 0]⟩

def streamD : ℕ → ℤ × ℤ := fun _ => (50, 0)

noncomputable def nodesD : List TreeNode :=
  [⟨⟨0, 0⟩, none⟩, ⟨⟨7, 0⟩, some 0⟩, ⟨⟨14, 0⟩, some 1⟩, ⟨⟨20, 0⟩, some 2⟩]

noncomputable def cfgE : RunConfig :=
  ⟨⟨0, 0⟩, ⟨4, 0⟩, (1, 1), 2, 1 / 2, 5, []⟩

def streamE : ℕ → ℤ × ℤ := fun _ => (-1, 0)

noncomputable def nodesE : List TreeNode :=
  [⟨⟨0, 0⟩, none⟩, ⟨⟨-5, 0⟩, some 0⟩]

/-- Invariant of the node list while the loop is still growing: the list is
nonempty, its head is the root (no parent, at the start position), and
every later node has a parent strictly earlier in the list, was appended
collision-free, and sits exactly one step from its parent. -/
def growInv (cfg : RunConfig) (ns : List TreeNode) : Prop :=
  ∃ h0 : 0 < ns.length,
    (ns.get ⟨0, h0⟩).parent = none ∧ (ns.get ⟨0, h0⟩).val = cfg.start ∧
    ∀ i, ∀ hi : i < ns.length, 0 < i →
      ∃ j, ∃ hj : j < ns.length, j < i ∧ (ns.get ⟨i, hi⟩).parent = some j ∧
        ¬ anyCollision cfg.obstacles (ns.get ⟨i, hi⟩).val ∧
        (Vec2.sub (ns.get ⟨i, hi⟩).val (ns.get ⟨j, hj⟩).val).norm = |cfg.stepSize|

/-- Invariant of a completed run: the node list is a growing-invariant list
followed by the goal node, whose parent is a valid index into that list. -/
def successInv (cfg : RunConfig) (ns : List TreeNode) : Prop :=
  ∃ ns0 j, ns = ns0 ++ [⟨cfg.goal, some j⟩] ∧ growInv cfg ns0 ∧ j < ns0.length

/-- Consecutive elements of an extracted path are exactly parent/child
pairs of the tree: each adjacent pair is the position of some node and of
the parent of that node. -/
def pathPairs (ns : List TreeNode) (p : List Vec2) : Prop :=
  ∀ k a b, p.get? k = some a → p.get? (k + 1) = some b →
    ∃ i j, ∃ hi : i < ns.length, ∃ hj : j < ns.length,
      (ns.get ⟨i, hi⟩).parent = some j ∧
      a = (ns.get ⟨i, hi⟩).val ∧ b = (ns.get ⟨j, hj⟩).val

/-- The last element of an extracted path is the position of a child of
the root (the walk stops at the root without emitting it). -/
def lastChildOfRoot (ns : List TreeNode) (p : List Vec2) : Prop :=
  ∃ m, ∃ hm : m < ns.length, (ns.get ⟨m, hm⟩).parent = some 0 ∧
    p.getLast? = some (ns.get ⟨m, hm⟩).val

/-! ### Claim-facing predicates and configurations -/

/-- The wording the spec uses for the Circle collision test: the Euclidean
distance from the point to the center. -/
noncomputable def euclideanDistance (p q : Vec2) : ℝ :=
  Real.sqrt ((p.x - q.x) ^ 2 + (p.y - q.y) ^ 2)

/-- Tree well-formedness as the spec states it: the list is nonempty and
rooted at the start position (the root has no parent), and every other
node has exactly one parent that occurs strictly earlier in the list. -/
def treeWF (start : Vec2) (ns : List TreeNode) : Prop :=
  ∃ h0 : 0 < ns.length,
    (ns.get ⟨0, h0⟩).parent = none ∧ (ns.get ⟨0, h0⟩).val = start ∧
    ∀ i, ∀ hi : i < ns.length, 0 < i → ∃ j, j < i ∧ (ns.get ⟨i, hi⟩).parent = some j

/-- The node lists reachable during a run: the initial singleton root
list, and every list produced from a reachable one by a growing iteration
taken while the loop condition still holds. -/
inductive ReachState (cfg : RunConfig) (stream : ℕ → ℤ × ℤ) : ℕ → List TreeNode → Prop where
  | init : ReachState cfg stream 0 [⟨cfg.start, none⟩]
  | step {k : ℕ} {ns ns2 : List TreeNode} :
      ReachState cfg stream k ns → ns.length < cfg.nodeLimit →
      growStep cfg (Vec2.ofSample (stream k)) ns = .growing ns2 →
      ReachState cfg stream (k + 1) ns2

/-- Configuration for the goal-check witness: the root is outside goal
tolerance but a later node is inside it. -/
noncomputable def cfgW : RunConfig :=
  ⟨⟨0, 0⟩, ⟨2, 0⟩, (10, 10), 100, 1, 1, []⟩

/-! ### Small-step evaluation lemmas -/

theorem Vec2.sub_mk (ax ay bx c : ℝ) : Vec2.sub ⟨ax, ay⟩ ⟨bx, c⟩ = ⟨ax - bx, ay - c⟩ := rfl

theorem Vec2.norm_axis (a : ℝ) : Vec2.norm ⟨a, 0⟩ = |a| := by
  simp [Vec2.norm, Real.sqrt_sq_eq_abs]

theorem Vec2.norm_axis_nonneg {a : ℝ} (h : 0 ≤ a) : Vec2.norm ⟨a, 0⟩ = a := by
  rw [Vec2.norm_axis, abs_of_nonneg h]

theorem scanFrom_nil (g : Vec2) (tol : ℝ) (s : Vec2) (i : ℕ)
    (acc : Option (ℕ × TreeNode × Vec2 × ℝ)) :
    scanFrom g tol s [] i acc = .nearest acc := by
  rw [scanFrom.eq_def]

theorem scanFrom_cons_goal {g : Vec2} {tol : ℝ} (s : Vec2) {n : TreeNode}
    (rest : List TreeNode) (i : ℕ) (acc : Option (ℕ × TreeNode × Vec2 × ℝ))
    (h : (Vec2.sub g n.val).norm < tol) :
    scanFrom g tol s (n :: rest) i acc = .goalFound i := by
  rw [scanFrom.eq_def]
  exact if_pos h

theorem scanFrom_cons_none {g : Vec2} {tol : ℝ} (s : Vec2) {n : TreeNode}
    (rest : List TreeNode) (i : ℕ)
    (h : ¬ (Vec2.sub g n.val).norm < tol) :
    scanFrom g tol s (n :: rest) i none =
      scanFrom g tol s rest (i + 1)
        (some (i, n, Vec2.sub s n.val, (Vec2.sub s n.val).norm)) := by
  rw [scanFrom.eq_def]
  exact if_neg h

theorem scanFrom_cons_lt {g : Vec2} {tol : ℝ} {s : Vec2} {n : TreeNode}
    (rest : List TreeNode) (i : ℕ) {bi : ℕ} {bn : TreeNode} {bv : Vec2} {bd : ℝ}
    (h : ¬ (Vec2.sub g n.val).norm < tol)
    (hlt : (Vec2.sub s n.val).norm < bd) :
    scanFrom g tol s (n :: rest) i (some (bi, bn, bv, bd)) =
      scanFrom g tol s rest (i + 1)
        (some (i, n, Vec2.sub s n.val, (Vec2.sub s n.val).norm)) := by
  rw [scanFrom.eq_def]
  exact (if_neg h).trans (if_pos hlt)

theorem scanFrom_cons_ge {g : Vec2} {tol : ℝ} {s : Vec2} {n : TreeNode}
    (rest : List TreeNode) (i : ℕ) {bi : ℕ} {bn : TreeNode} {bv : Vec2} {bd : ℝ}
    (h : ¬ (Vec2.sub g n.val).norm < tol)
    (hge : ¬ (Vec2.sub s n.val).norm < bd) :
    scanFrom g tol s (n :: rest) i (some (bi, bn, bv, bd)) =
      scanFrom g tol s rest (i + 1) (some (bi, bn, bv, bd)) := by
  rw [scanFrom.eq_def]
  exact (if_neg h).trans (if_neg hge)

theorem growStep_goalFound {cfg : RunConfig} {s : Vec2} {ns : List TreeNode} {i : ℕ}
    (hscan : scanFrom cfg.goal cfg.goalTolerance s ns 0 none = .goalFound i) :
    growStep cfg s ns = .succeeded (ns ++ [⟨cfg.goal, some i⟩]) := by
  rw [growStep.eq_def, hscan]

theorem growStep_nearestNone {cfg : RunConfig} {s : Vec2} {ns : List TreeNode}
    (hscan : scanFrom cfg.goal cfg.goalTolerance s ns 0 none = .nearest none) :
    growStep cfg s ns = .growing ns := by
  rw [growStep.eq_def, hscan]

theorem growStep_extend {cfg : RunConfig} {s : Vec2} {ns : List TreeNode}
    {i : ℕ} {nd : TreeNode} {v : Vec2} {d : ℝ}
    (hscan : scanFrom cfg.goal cfg.goalTolerance s ns 0 none = .nearest (some (i, nd, v, d)))
    (hd : d ≠ 0)
    (hcol : ¬ anyCollision cfg.obstacles
      ⟨nd.val.x + v.x / d * cfg.stepSize, nd.val.y + v.y / d * cfg.stepSize⟩) :
    growStep cfg s ns = .growing (ns ++
      [⟨⟨nd.val.x + v.x / d * cfg.stepSize, nd.val.y + v.y / d * cfg.stepSize⟩,
        some i⟩]) := by
  rw [growStep.eq_def, hscan]
  exact (if_pos hd).trans (if_neg hcol)

theorem growStep_collide {cfg : RunConfig} {s : Vec2} {ns : List TreeNode}
    {i : ℕ} {nd : TreeNode} {v : Vec2} {d : ℝ}
    (hscan : scanFrom cfg.goal cfg.goalTolerance s ns 0 none = .nearest (some (i, nd, v, d)))
    (hd : d ≠ 0)
    (hcol : anyCollision cfg.obstacles
      ⟨nd.val.x + v.x / d * cfg.stepSize, nd.val.y + v.y / d * cfg.stepSize⟩) :
    growStep cfg s ns = .growing ns := by
  rw [growStep.eq_def, hscan]
  exact (if_pos hd).trans (if_pos hcol)

theorem growStep_zeroDist {cfg : RunConfig} {s : Vec2} {ns : List TreeNode}
    {i : ℕ} {nd : TreeNode} {v : Vec2} {d : ℝ}
    (hscan : scanFrom cfg.goal cfg.goalTolerance s ns 0 none = .nearest (some (i, nd, v, d)))
    (hd : ¬ d ≠ 0) :
    growStep cfg s ns = .growing ns := by
  rw [growStep.eq_def, hscan]
  exact if_neg hd

theorem runLoop_zero (cfg : RunConfig) (stream : ℕ → ℤ × ℤ) (k : ℕ) (ns : List TreeNode) :
    runLoop cfg stream 0 k ns = none := by
  rw [runLoop.eq_def]

theorem runLoop_exhausted {cfg : RunConfig} (stream : ℕ → ℤ × ℤ) (fuel k : ℕ)
    {ns : List TreeNode} (h : ¬ ns.length < cfg.nodeLimit) :
    runLoop cfg stream (fuel + 1) k ns = some (.failure .nodeLimitExhausted ns) := by
  rw [runLoop.eq_def]
  exact if_neg h

theorem runLoop_succeeded {cfg : RunConfig} {stream : ℕ → ℤ × ℤ} (fuel : ℕ) {k : ℕ}
    {ns ns2 : List TreeNode} (hlen : ns.length < cfg.nodeLimit)
    (hstep : growStep cfg (Vec2.ofSample (stream k)) ns = .succeeded ns2) :
    runLoop cfg stream (fuel + 1) k ns = some (.success ns2) := by
  rw [runLoop.eq_def]
  exact (if_pos hlen).trans (by rw [hstep])

theorem runLoop_growing {cfg : RunConfig} {stream : ℕ → ℤ × ℤ} (fuel : ℕ) {k : ℕ}
    {ns ns2 : List TreeNode} (hlen : ns.length < cfg.nodeLimit)
    (hstep : growStep cfg (Vec2.ofSample (stream k)) ns = .growing ns2) :
    runLoop cfg stream (fuel + 1) k ns = runLoop cfg stream fuel (k + 1) ns2 := by
  rw [runLoop.eq_def]
  exact (if_pos hlen).trans (by rw [hstep])

/-! ### Norm and collision evaluation helpers -/

theorem Vec2.norm_eval {vx vy r : ℝ} (h : vx ^ 2 + vy ^ 2 = r ^ 2) (hr : 0 ≤ r) :
    Vec2.norm ⟨vx, vy⟩ = r := by
  rw [Vec2.norm, h, Real.sqrt_sq hr]

theorem norm_sub_eval {ax ay bx c r : ℝ} (h : (ax - bx) ^ 2 + (ay - c) ^ 2 = r ^ 2)
    (hr : 0 ≤ r) : (Vec2.sub ⟨ax, ay⟩ ⟨bx, c⟩).norm = r := by
  rw [Vec2.sub_mk]
  exact Vec2.norm_eval h hr

theorem anyCollision_nil (p : Vec2) : ¬ anyCollision [] p := by
  simp [anyCollision]


/-! ### Run A: immediate success on the first scan -/

theorem growA_eval :
    growStep cfgA (Vec2.ofSample (streamA 0)) [⟨cfgA.start, none⟩] = .succeeded nodesA := by
  have hscan : scanFrom cfgA.goal cfgA.goalTolerance (Vec2.ofSample (streamA 0))
      [⟨cfgA.start, none⟩] 0 none = .goalFound 0 := by
    apply scanFrom_cons_goal
    show (Vec2.sub ⟨3, 0⟩ ⟨0, 0⟩).norm < (5 : ℝ)
    rw [norm_sub_eval (r := 3) (by norm_num) (by norm_num)]
    norm_num
  exact growStep_goalFound hscan

theorem runA_eval : runPlanner cfgA streamA 1 = some (.success nodesA) := by
  rw [runPlanner]
  exact runLoop_succeeded 0 (by decide) growA_eval

theorem extractPathA_eval : extractPath nodesA = [⟨3, 0⟩] := rfl

/-! ### Run B: the all-covering obstacle makes every iteration a no-op -/

theorem growB_eval :
    growStep cfgB ⟨1, 0⟩ [⟨cfgB.start, none⟩] = .growing [⟨cfgB.start, none⟩] := by
  have hg0 : ¬ (Vec2.sub cfgB.goal (⟨cfgB.start, none⟩ : TreeNode).val).norm <
      cfgB.goalTolerance := by
    show ¬ (Vec2.sub ⟨4, 0⟩ ⟨0, 0⟩).norm < (1 / 2 : ℝ)
    rw [norm_sub_eval (r := 4) (by norm_num) (by norm_num)]
    norm_num
  have hsub : Vec2.sub ⟨1, 0⟩ (⟨cfgB.start, none⟩ : TreeNode).val = ⟨1, 0⟩ := by
    show Vec2.sub ⟨1, 0⟩ ⟨0, 0⟩ = ⟨1, 0⟩
    rw [Vec2.sub_mk]
    norm_num
  have hnorm : (Vec2.sub ⟨1, 0⟩ (⟨cfgB.start, none⟩ : TreeNode).val).norm = 1 := by
    rw [hsub]
    exact Vec2.norm_eval (by norm_num) (by norm_num)
  have hscan : scanFrom cfgB.goal cfgB.goalTolerance ⟨1, 0⟩ [⟨cfgB.start, none⟩] 0 none =
      .nearest (some (0, ⟨cfgB.start, none⟩, ⟨1, 0⟩, 1)) := by
    rw [scanFrom_cons_none _ _ _ hg0, scanFrom_nil, hnorm, hsub]
  apply growStep_collide hscan (by norm_num)
  refine ⟨.rectangle 0 0 1000 1000 0, by simp [cfgB], ?_⟩
  show collides (.rectangle 0 0 1000 1000 0) ⟨0 + 1 / 1 * 1, 0 + 0 / 1 * 1⟩
  simp only [collides]
  norm_num

theorem runLoopB_none :
    ∀ fuel k, runLoop cfgB streamB fuel k [⟨cfgB.start, none⟩] = none := by
  intro fuel
  induction fuel with
  | zero => intro k; exact runLoop_zero _ _ _ _
  | succ n ih =>
      intro k
      have hstep : growStep cfgB (Vec2.ofSample (streamB k)) [⟨cfgB.start, none⟩] =
          .growing [⟨cfgB.start, none⟩] := by
        rw [show Vec2.ofSample (streamB k) = (⟨1, 0⟩ : Vec2) from by
          simp [Vec2.ofSample, streamB, Vec2.mk.injEq]]
        exact growB_eval
      rw [runLoop_growing n (by decide) hstep]
      exact ih (k + 1)

theorem runB_none : ∀ fuel, runPlanner cfgB streamB fuel = none := by
  intro fuel
  rw [runPlanner]
  exact runLoopB_none fuel 0

/-! ### Run E: the accepted candidate leaves the sampling region -/

theorem growE_eval :
    growStep cfgE ⟨-1, 0⟩ [⟨cfgE.start, none⟩] = .growing nodesE := by
  have hg0 : ¬ (Vec2.sub cfgE.goal (⟨cfgE.start, none⟩ : TreeNode).val).norm <
      cfgE.goalTolerance := by
    show ¬ (Vec2.sub ⟨4, 0⟩ ⟨0, 0⟩).norm < (1 / 2 : ℝ)
    rw [norm_sub_eval (r := 4) (by norm_num) (by norm_num)]
    norm_num
  have hsub : Vec2.sub ⟨-1, 0⟩ (⟨cfgE.start, none⟩ : TreeNode).val = ⟨-1, 0⟩ := by
    show Vec2.sub ⟨-1, 0⟩ ⟨0, 0⟩ = ⟨-1, 0⟩
    rw [Vec2.sub_mk]
    norm_num
  have hnorm : (Vec2.sub ⟨-1, 0⟩ (⟨cfgE.start, none⟩ : TreeNode).val).norm = 1 := by
    rw [hsub]
    exact Vec2.norm_eval (by norm_num) (by norm_num)
  have hscan : scanFrom cfgE.goal cfgE.goalTolerance ⟨-1, 0⟩ [⟨cfgE.start, none⟩] 0 none =
      .nearest (some (0, ⟨cfgE.start, none⟩, ⟨-1, 0⟩, 1)) := by
    rw [scanFrom_cons_none _ _ _ hg0, scanFrom_nil, hnorm, hsub]
  rw [growStep_extend hscan (by norm_num) (anyCollision_nil _)]
  show StepResult.growing [⟨⟨0, 0⟩, none⟩, ⟨⟨0 + -1 / 1 * 5, 0 + 0 / 1 * 5⟩, some 0⟩] = _
  norm_num [nodesE, Vec2.mk.injEq]

theorem runE_eval :
    runPlanner cfgE streamE 2 = some (.failure .nodeLimitExhausted nodesE) := by
  have hstep0 : growStep cfgE (Vec2.ofSample (streamE 0)) [⟨cfgE.start, none⟩] =
      .growing nodesE := by
    rw [show Vec2.ofSample (streamE 0) = (⟨-1, 0⟩ : Vec2) from by
      simp [Vec2.ofSample, streamE, Vec2.mk.injEq]]
    exact growE_eval
  calc runPlanner cfgE streamE 2
      = runLoop cfgE streamE 2 0 [⟨cfgE.start, none⟩] := by rw [runPlanner]
    _ = runLoop cfgE streamE 1 1 nodesE := runLoop_growing 1 (by decide) hstep0
    _ = some (.failure .nodeLimitExhausted nodesE) :=
        runLoop_exhausted _ 0 1 (by decide)

/-! ### Run D: two growth steps, then a goal hit whose goal lies inside an obstacle -/

theorem not_collides_rect {cx cy w h rot : ℝ} {p : Vec2}
    (hx : p.x ≤ cx - w / 2 ∨ cx + w / 2 ≤ p.x ∨ p.y ≤ cy - h / 2 ∨ cy + h / 2 ≤ p.y) :
    ¬ collides (.rectangle cx cy w h rot) p := by
  simp only [collides]
  rintro ⟨⟨h1, h2⟩, h3, h4⟩
  rcases hx with hx | hx | hx | hx <;> linarith

theorem growD_goal0 : ¬ (Vec2.sub cfgD.goal (⟨⟨0, 0⟩, none⟩ : TreeNode).val).norm <
    cfgD.goalTolerance := by
  show ¬ (Vec2.sub ⟨20, 0⟩ ⟨0, 0⟩).norm < (9 : ℝ)
  rw [norm_sub_eval (r := 20) (by norm_num) (by norm_num)]
  norm_num

theorem growD_goal1 : ¬ (Vec2.sub cfgD.goal (⟨⟨7, 0⟩, some 0⟩ : TreeNode).val).norm <
    cfgD.goalTolerance := by
  show ¬ (Vec2.sub ⟨20, 0⟩ ⟨7, 0⟩).norm < (9 : ℝ)
  rw [norm_sub_eval (r := 13) (by norm_num) (by norm_num)]
  norm_num

theorem growD_goal2 : (Vec2.sub cfgD.goal (⟨⟨14, 0⟩, some 1⟩ : TreeNode).val).norm <
    cfgD.goalTolerance := by
  show (Vec2.sub ⟨20, 0⟩ ⟨14, 0⟩).norm < (9 : ℝ)
  rw [norm_sub_eval (r := 6) (by norm_num) (by norm_num)]
  norm_num

theorem growD_sub0 : Vec2.sub ⟨50, 0⟩ (⟨⟨0, 0⟩, none⟩ : TreeNode).val = ⟨50, 0⟩ := by
  show Vec2.sub ⟨50, 0⟩ ⟨0, 0⟩ = ⟨50, 0⟩
  rw [Vec2.sub_mk]
  norm_num

theorem growD_norm0 : (Vec2.sub ⟨50, 0⟩ (⟨⟨0, 0⟩, none⟩ : TreeNode).val).norm = 50 := by
  rw [growD_sub0]
  exact Vec2.norm_eval (by norm_num) (by norm_num)

theorem growD_sub1 : Vec2.sub ⟨50, 0⟩ (⟨⟨7, 0⟩, some 0⟩ : TreeNode).val = ⟨43, 0⟩ := by
  show Vec2.sub ⟨50, 0⟩ ⟨7, 0⟩ = ⟨43, 0⟩
  rw [Vec2.sub_mk]
  norm_num

theorem growD_norm1 : (Vec2.sub ⟨50, 0⟩ (⟨⟨7, 0⟩, some 0⟩ : TreeNode).val).norm = 43 := by
  rw [growD_sub1]
  exact Vec2.norm_eval (by norm_num) (by norm_num)

theorem growD1 :
    growStep cfgD ⟨50, 0⟩ [⟨⟨0, 0⟩, none⟩] =
      .growing [⟨⟨0, 0⟩, none⟩, ⟨⟨7, 0⟩, some 0⟩] := by
  have hscan : scanFrom cfgD.goal cfgD.goalTolerance ⟨50, 0⟩ [⟨⟨0, 0⟩, none⟩] 0 none =
      .nearest (some (0, ⟨⟨0, 0⟩, none⟩, ⟨50, 0⟩, 50)) := by
    rw [scanFrom_cons_none _ _ _ growD_goal0, scanFrom_nil, growD_norm0, growD_sub0]
  have hcol : ¬ anyCollision cfgD.obstacles ⟨0 + 50 / 50 * 7, 0 + 0 / 50 * 7⟩ := by
    rintro ⟨o, ho, hc⟩
    simp [cfgD] at ho
    subst ho
    exact not_collides_rect (by left; norm_num) hc
  rw [growStep_extend hscan (by norm_num) hcol]
  norm_num [cfgD, Vec2.mk.injEq]

theorem growD2 :
    growStep cfgD ⟨50, 0⟩ [⟨⟨0, 0⟩, none⟩, ⟨⟨7, 0⟩, some 0⟩] =
      .growing [⟨⟨0, 0⟩, none⟩, ⟨⟨7, 0⟩, some 0⟩, ⟨⟨14, 0⟩, some 1⟩] := by
  have hlt1 : (Vec2.sub ⟨50, 0⟩ (⟨⟨7, 0⟩, some 0⟩ : TreeNode).val).norm < 50 := by
    rw [growD_norm1]
    norm_num
  have hscan : scanFrom cfgD.goal cfgD.goalTolerance ⟨50, 0⟩
      [⟨⟨0, 0⟩, none⟩, ⟨⟨7, 0⟩, some 0⟩] 0 none =
      .nearest (some (1, ⟨⟨7, 0⟩, some 0⟩, ⟨43, 0⟩, 43)) := by
    rw [scanFrom_cons_none _ _ _ growD_goal0, growD_norm0, growD_sub0,
      scanFrom_cons_lt _ _ growD_goal1 hlt1, scanFrom_nil, growD_norm1, growD_sub1]
  have hcol : ¬ anyCollision cfgD.obstacles ⟨7 + 43 / 43 * 7, 0 + 0 / 43 * 7⟩ := by
    rintro ⟨o, ho, hc⟩
    simp [cfgD] at ho
    subst ho
    exact not_collides_rect (by left; norm_num) hc
  rw [growStep_extend hscan (by norm_num) hcol]
  norm_num [cfgD, Vec2.mk.injEq]

theorem growD3 :
    growStep cfgD ⟨50, 0⟩ [⟨⟨0, 0⟩, none⟩, ⟨⟨7, 0⟩, some 0⟩, ⟨⟨14, 0⟩, some 1⟩] =
      .succeeded nodesD := by
  have hlt1 : (Vec2.sub ⟨50, 0⟩ (⟨⟨7, 0⟩, some 0⟩ : TreeNode).val).norm < 50 := by
    rw [growD_norm1]
    norm_num
  have hscan : scanFrom cfgD.goal cfgD.goalTolerance ⟨50, 0⟩
      [⟨⟨0, 0⟩, none⟩, ⟨⟨7, 0⟩, some 0⟩, ⟨⟨14, 0⟩, some 1⟩] 0 none = .goalFound 2 := by
    rw [scanFrom_cons_none _ _ _ growD_goal0, growD_norm0, growD_sub0,
      scanFrom_cons_lt _ _ growD_goal1 hlt1, scanFrom_cons_goal _ _ _ _ growD_goal2]
  exact growStep_goalFound hscan

theorem runD_eval : runPlanner cfgD streamD 3 = some (.success nodesD) := by
  have hs : ∀ k, Vec2.ofSample (streamD k) = (⟨50, 0⟩ : Vec2) := by
    intro k
    simp [Vec2.ofSample, streamD, Vec2.mk.injEq]
  have hstep0 : growStep cfgD (Vec2.ofSample (streamD 0)) [⟨cfgD.start, none⟩] =
      .growing [⟨⟨0, 0⟩, none⟩, ⟨⟨7, 0⟩, some 0⟩] := by
    rw [hs 0]
    exact growD1
  have hstep1 : growStep cfgD (Vec2.ofSample (streamD 1))
      [⟨⟨0, 0⟩, none⟩, ⟨⟨7, 0⟩, some 0⟩] =
      .growing [⟨⟨0, 0⟩, none⟩, ⟨⟨7, 0⟩, some 0⟩, ⟨⟨14, 0⟩, some 1⟩] := by
    rw [hs 1]
    exact growD2
  have hstep2 : growStep cfgD (Vec2.ofSample (streamD 2))
      [⟨⟨0, 0⟩, none⟩, ⟨⟨7, 0⟩, some 0⟩, ⟨⟨14, 0⟩, some 1⟩] = .succeeded nodesD := by
    rw [hs 2]
    exact growD3
  calc runPlanner cfgD streamD 3
      = runLoop cfgD streamD 3 0 [⟨cfgD.start, none⟩] := by rw [runPlanner]
    _ = runLoop cfgD streamD 2 1 [⟨⟨0, 0⟩, none⟩, ⟨⟨7, 0⟩, some 0⟩] :=
        runLoop_growing 2 (by decide) hstep0
    _ = runLoop cfgD streamD 1 2 [⟨⟨0, 0⟩, none⟩, ⟨⟨7, 0⟩, some 0⟩, ⟨⟨14, 0⟩, some 1⟩] :=
        runLoop_growing 1 (by decide) hstep1
    _ = some (.success nodesD) := runLoop_succeeded 0 (by decide) hstep2

/-! ### Atomicity of one iteration -/

theorem growStep_shape (cfg : RunConfig) (s : Vec2) (ns : List TreeNode) :
    growStep cfg s ns = .growing ns ∨
    (∃ nd, growStep cfg s ns = .growing (ns ++ [nd])) ∨
    (∃ nd, growStep cfg s ns = .succeeded (ns ++ [nd])) := by
  rcases hscan : scanFrom cfg.goal cfg.goalTolerance s ns 0 none with k | best
  · exact Or.inr (Or.inr ⟨⟨cfg.goal, some k⟩, growStep_goalFound hscan⟩)
  · rcases best with _ | ⟨k, nd, v, d⟩
    · exact Or.inl (growStep_nearestNone hscan)
    · by_cases hd : d ≠ 0
      · by_cases hc : anyCollision cfg.obstacles
            ⟨nd.val.x + v.x / d * cfg.stepSize, nd.val.y + v.y / d * cfg.stepSize⟩
        · exact Or.inl (growStep_collide hscan hd hc)
        · exact Or.inr (Or.inl ⟨_, growStep_extend hscan hd hc⟩)
      · exact Or.inl (growStep_zeroDist hscan hd)

/-! ### What the scan returns -/

theorem scanFrom_goalFound_spec {g : Vec2} {tol : ℝ} {s : Vec2} :
    ∀ (ℓ : List TreeNode) (i : ℕ) (acc : Option (ℕ × TreeNode × Vec2 × ℝ)) {k : ℕ},
      scanFrom g tol s ℓ i acc = .goalFound k →
      ∃ m, ∃ hm : m < ℓ.length, k = i + m ∧
        (Vec2.sub g (ℓ.get ⟨m, hm⟩).val).norm < tol := by
  intro ℓ
  induction ℓ with
  | nil =>
      intro i acc k h
      rw [scanFrom_nil] at h
      exact absurd h (by simp)
  | cons n rest ih =>
      intro i acc k h
      by_cases hg : (Vec2.sub g n.val).norm < tol
      · rw [scanFrom_cons_goal _ _ _ _ hg] at h
        injection h with h2
        exact ⟨0, by simp, by omega, by simpa using hg⟩
      · have step : ∀ acc2, scanFrom g tol s rest (i + 1) acc2 = .goalFound k →
            ∃ m, ∃ hm : m < (n :: rest).length, k = i + m ∧
              (Vec2.sub g ((n :: rest).get ⟨m, hm⟩).val).norm < tol := by
          intro acc2 h2
          obtain ⟨m, hm, hk, hlt⟩ := ih (i + 1) acc2 h2
          exact ⟨m + 1, by simp only [List.length_cons]; omega, by omega, by simpa using hlt⟩
        rcases acc with _ | ⟨bi, bn, bv, bd⟩
        · rw [scanFrom_cons_none _ _ _ hg] at h
          exact step _ h
        · by_cases hlt : (Vec2.sub s n.val).norm < bd
          · rw [scanFrom_cons_lt _ _ hg hlt] at h
            exact step _ h
          · rw [scanFrom_cons_ge _ _ hg hlt] at h
            exact step _ h

theorem scanFrom_nearest_spec {g : Vec2} {tol : ℝ} {s : Vec2} (C : ℕ → TreeNode → Prop) :
    ∀ (ℓ : List TreeNode) (i : ℕ) (acc : Option (ℕ × TreeNode × Vec2 × ℝ)),
      (∀ k0 nd0 v0 d0, acc = some (k0, nd0, v0, d0) →
        C k0 nd0 ∧ v0 = Vec2.sub s nd0.val ∧ d0 = (Vec2.sub s nd0.val).norm) →
      (∀ m, ∀ hm : m < ℓ.length, C (i + m) (ℓ.get ⟨m, hm⟩)) →
      ∀ {k : ℕ} {nd : TreeNode} {v : Vec2} {d : ℝ},
        scanFrom g tol s ℓ i acc = .nearest (some (k, nd, v, d)) →
        C k nd ∧ v = Vec2.sub s nd.val ∧ d = (Vec2.sub s nd.val).norm := by
  intro ℓ
  induction ℓ with
  | nil =>
      intro i acc hacc hmem k nd v d h
      rw [scanFrom_nil] at h
      injection h with h2
      exact hacc k nd v d h2
  | cons n rest ih =>
      intro i acc hacc hmem k nd v d h
      by_cases hg : (Vec2.sub g n.val).norm < tol
      · rw [scanFrom_cons_goal _ _ _ _ hg] at h
        exact absurd h (by simp)
      · have hmem2 : ∀ m, ∀ hm : m < rest.length, C (i + 1 + m) (rest.get ⟨m, hm⟩) := by
          intro m hm
          have h3 := hmem (m + 1) (by simp only [List.length_cons]; omega)
          rw [show i + (m + 1) = i + 1 + m from by omega] at h3
          simpa using h3
        have haccN : ∀ k0 nd0 v0 d0,
            (some (i, n, Vec2.sub s n.val, (Vec2.sub s n.val).norm) :
              Option (ℕ × TreeNode × Vec2 × ℝ)) = some (k0, nd0, v0, d0) →
            C k0 nd0 ∧ v0 = Vec2.sub s nd0.val ∧ d0 = (Vec2.sub s nd0.val).norm := by
          intro k0 nd0 v0 d0 he
          injection he with he2
          obtain ⟨rfl, rfl, rfl, rfl⟩ : i = k0 ∧ n = nd0 ∧ Vec2.sub s n.val = v0 ∧
              (Vec2.sub s n.val).norm = d0 := by simpa using he2
          exact ⟨by simpa using hmem 0 (by simp), rfl, rfl⟩
        rcases acc with _ | ⟨bi, bn, bv, bd⟩
        · rw [scanFrom_cons_none _ _ _ hg] at h
          exact ih (i + 1) _ haccN hmem2 h
        · by_cases hlt : (Vec2.sub s n.val).norm < bd
          · rw [scanFrom_cons_lt _ _ hg hlt] at h
            exact ih (i + 1) _ haccN hmem2 h
          · rw [scanFrom_cons_ge _ _ hg hlt] at h
            exact ih (i + 1) _ (fun k0 nd0 v0 d0 he => hacc k0 nd0 v0 d0 he) hmem2 h

theorem scanFrom_top_goalFound {g : Vec2} {tol : ℝ} {s : Vec2} {ns : List TreeNode} {k : ℕ}
    (h : scanFrom g tol s ns 0 none = .goalFound k) :
    ∃ hk : k < ns.length, (Vec2.sub g (ns.get ⟨k, hk⟩).val).norm < tol := by
  obtain ⟨m, hm, hk, hlt⟩ := scanFrom_goalFound_spec ns 0 none h
  subst hk
  exact ⟨by simpa using hm, by simpa using hlt⟩

theorem scanFrom_top_nearest {g : Vec2} {tol : ℝ} {s : Vec2} {ns : List TreeNode}
    {k : ℕ} {nd : TreeNode} {v : Vec2} {d : ℝ}
    (h : scanFrom g tol s ns 0 none = .nearest (some (k, nd, v, d))) :
    (∃ hk : k < ns.length, ns.get ⟨k, hk⟩ = nd) ∧
      v = Vec2.sub s nd.val ∧ d = (Vec2.sub s nd.val).norm := by
  refine scanFrom_nearest_spec (fun k0 nd0 => ∃ hk : k0 < ns.length, ns.get ⟨k0, hk⟩ = nd0)
    ns 0 none ?_ ?_ h
  · intro _ _ _ _ he
    exact absurd he (by simp)
  · intro m hm
    exact ⟨by simpa using hm, by simp⟩

/-! ### The step geometry: a committed growth node is exactly one step from its parent -/

theorem step_norm {v : Vec2} {d st : ℝ} (hd : d ≠ 0) (hdn : d = Vec2.norm v) :
    Vec2.norm ⟨v.x / d * st, v.y / d * st⟩ = |st| := by
  have h0 : 0 ≤ v.x ^ 2 + v.y ^ 2 := by positivity
  have hsq : d ^ 2 = v.x ^ 2 + v.y ^ 2 := by
    rw [hdn, Vec2.norm, Real.sq_sqrt h0]
  have hcomp : (v.x / d * st) ^ 2 + (v.y / d * st) ^ 2 = st ^ 2 := by
    have hr : (v.x / d * st) ^ 2 + (v.y / d * st) ^ 2 =
        (v.x ^ 2 + v.y ^ 2) / d ^ 2 * st ^ 2 := by ring
    rw [hr, ← hsq, div_self (pow_ne_zero 2 hd), one_mul]
  rw [Vec2.norm, hcomp, Real.sqrt_sq_eq_abs]

theorem sub_step {a : Vec2} {e1 e2 : ℝ} :
    Vec2.sub ⟨a.x + e1, a.y + e2⟩ a = ⟨e1, e2⟩ := by
  simp [Vec2.sub, Vec2.mk.injEq]

/-! ### Tree invariants maintained by the growth loop -/

theorem get_append_lt {ns : List TreeNode} (nd : TreeNode) {i : ℕ} (hi : i < ns.length)
    (hi2 : i < (ns ++ [nd]).length) : (ns ++ [nd]).get ⟨i, hi2⟩ = ns.get ⟨i, hi⟩ := by
  simp [List.getElem_append, hi]

theorem get_append_last {ns : List TreeNode} (nd : TreeNode)
    (h : ns.length < (ns ++ [nd]).length) : (ns ++ [nd]).get ⟨ns.length, h⟩ = nd := by
  simp [List.getElem_concat_length]

theorem growInv_append {cfg : RunConfig} {ns : List TreeNode} (hinv : growInv cfg ns)
    {nd : TreeNode} {j : ℕ} (hpar : nd.parent = some j) (hj : j < ns.length)
    (hcol : ¬ anyCollision cfg.obstacles nd.val)
    (hstep : (Vec2.sub nd.val (ns.get ⟨j, hj⟩).val).norm = |cfg.stepSize|) :
    growInv cfg (ns ++ [nd]) := by
  obtain ⟨h0, hroot, hstart, hrest⟩ := hinv
  have hlen : (ns ++ [nd]).length = ns.length + 1 := by simp
  refine ⟨by omega, ?_, ?_, ?_⟩
  · rw [get_append_lt nd h0]
    exact hroot
  · rw [get_append_lt nd h0]
    exact hstart
  · intro i hi hpos
    by_cases hlt : i < ns.length
    · obtain ⟨j2, hj2, hj2lt, hp, hc, hs⟩ := hrest i hlt hpos
      refine ⟨j2, by omega, hj2lt, ?_, ?_, ?_⟩
      · rw [get_append_lt nd hlt]
        exact hp
      · rw [get_append_lt nd hlt]
        exact hc
      · rw [get_append_lt nd hlt, get_append_lt nd hj2]
        exact hs
    · have hieq : i = ns.length := by omega
      subst hieq
      rw [get_append_last nd hi]
      exact ⟨j, by omega, by omega, hpar, hcol, by rw [get_append_lt nd hj]; exact hstep⟩

theorem growInv_init (cfg : RunConfig) : growInv cfg [⟨cfg.start, none⟩] := by
  refine ⟨by simp, rfl, rfl, ?_⟩
  intro i hi hpos
  simp at hi
  omega

theorem growStep_growing_inv {cfg : RunConfig} {s : Vec2} {ns ns2 : List TreeNode}
    (hinv : growInv cfg ns) (h : growStep cfg s ns = .growing ns2) : growInv cfg ns2 := by
  rcases hscan : scanFrom cfg.goal cfg.goalTolerance s ns 0 none with k | best
  · rw [growStep_goalFound hscan] at h
    exact absurd h (by simp)
  · rcases best with _ | ⟨k, nd, v, d⟩
    · rw [growStep_nearestNone hscan] at h
      injection h with h2
      exact h2 ▸ hinv
    · by_cases hd : d ≠ 0
      · by_cases hc : anyCollision cfg.obstacles
            ⟨nd.val.x + v.x / d * cfg.stepSize, nd.val.y + v.y / d * cfg.stepSize⟩
        · rw [growStep_collide hscan hd hc] at h
          injection h with h2
          exact h2 ▸ hinv
        · rw [growStep_extend hscan hd hc] at h
          injection h with h2
          obtain ⟨⟨hk, hgetk⟩, hv, hdn⟩ := scanFrom_top_nearest hscan
          refine h2 ▸ growInv_append hinv (j := k) rfl hk hc ?_
          show (Vec2.sub ⟨nd.val.x + v.x / d * cfg.stepSize,
            nd.val.y + v.y / d * cfg.stepSize⟩ (ns.get ⟨k, hk⟩).val).norm = |cfg.stepSize|
          rw [hgetk, sub_step]
          exact step_norm hd (by rw [hdn, hv])
      · rw [growStep_zeroDist hscan hd] at h
        injection h with h2
        exact h2 ▸ hinv

theorem growStep_succeeded_inv {cfg : RunConfig} {s : Vec2} {ns ns2 : List TreeNode}
    (hinv : growInv cfg ns) (h : growStep cfg s ns = .succeeded ns2) : successInv cfg ns2 := by
  rcases hscan : scanFrom cfg.goal cfg.goalTolerance s ns 0 none with k | best
  · rw [growStep_goalFound hscan] at h
    injection h with h2
    obtain ⟨hk, _⟩ := scanFrom_top_goalFound hscan
    exact ⟨ns, k, h2.symm, hinv, hk⟩
  · rcases best with _ | ⟨k, nd, v, d⟩
    · rw [growStep_nearestNone hscan] at h
      exact absurd h (by simp)
    · by_cases hd : d ≠ 0
      · by_cases hc : anyCollision cfg.obstacles
            ⟨nd.val.x + v.x / d * cfg.stepSize, nd.val.y + v.y / d * cfg.stepSize⟩
        · rw [growStep_collide hscan hd hc] at h
          exact absurd h (by simp)
        · rw [growStep_extend hscan hd hc] at h
          exact absurd h (by simp)
      · rw [growStep_zeroDist hscan hd] at h
        exact absurd h (by simp)

/-! ### Loop-level invariants -/

theorem runLoop_inv {cfg : RunConfig} {stream : ℕ → ℤ × ℤ} :
    ∀ fuel k ns r, growInv cfg ns → runLoop cfg stream fuel k ns = some r →
      (∃ ns2, r = .success ns2 ∧ successInv cfg ns2) ∨
      (∃ ns2, r = .failure .nodeLimitExhausted ns2 ∧ growInv cfg ns2) := by
  intro fuel
  induction fuel with
  | zero =>
      intro k ns r hinv h
      rw [runLoop_zero] at h
      exact absurd h (by simp)
  | succ n ih =>
      intro k ns r hinv h
      by_cases hlen : ns.length < cfg.nodeLimit
      · rcases hstep : growStep cfg (Vec2.ofSample (stream k)) ns with ns2 | ns2
        · rw [runLoop_succeeded n hlen hstep] at h
          injection h with h2
          exact Or.inl ⟨ns2, h2.symm, growStep_succeeded_inv hinv hstep⟩
        · rw [runLoop_growing n hlen hstep] at h
          exact ih (k + 1) ns2 r (growStep_growing_inv hinv hstep) h
      · rw [runLoop_exhausted _ n k hlen] at h
        injection h with h2
        exact Or.inr ⟨ns, h2.symm, hinv⟩

theorem runPlanner_inv {cfg : RunConfig} {stream : ℕ → ℤ × ℤ} {fuel : ℕ} {r : RunResult}
    (h : runPlanner cfg stream fuel = some r) :
    (∃ ns2, r = .success ns2 ∧ successInv cfg ns2) ∨
    (∃ ns2, r = .failure .nodeLimitExhausted ns2 ∧ growInv cfg ns2) := by
  rw [runPlanner] at h
  exact runLoop_inv fuel 0 _ r (growInv_init cfg) h

theorem runLoop_len {cfg : RunConfig} {stream : ℕ → ℤ × ℤ} :
    ∀ fuel k ns r, ns.length ≤ max cfg.nodeLimit 1 →
      runLoop cfg stream fuel k ns = some r →
      r.nodesOf.length ≤ max cfg.nodeLimit 1 := by
  intro fuel
  induction fuel with
  | zero =>
      intro k ns r hb h
      rw [runLoop_zero] at h
      exact absurd h (by simp)
  | succ n ih =>
      intro k ns r hb h
      by_cases hlen : ns.length < cfg.nodeLimit
      · have hb2 : ns.length + 1 ≤ max cfg.nodeLimit 1 :=
          le_trans hlen (le_max_left _ _)
        rcases growStep_shape cfg (Vec2.ofSample (stream k)) ns with hsh | ⟨nd, hsh⟩ | ⟨nd, hsh⟩
        · rw [runLoop_growing n hlen hsh] at h
          exact ih (k + 1) ns r hb h
        · rw [runLoop_growing n hlen hsh] at h
          exact ih (k + 1) _ r (by simpa using hb2) h
        · rw [runLoop_succeeded n hlen hsh] at h
          injection h with h2
          subst h2
          simpa [RunResult.nodesOf] using hb2
      · rw [runLoop_exhausted _ n k hlen] at h
        injection h with h2
        subst h2
        simpa [RunResult.nodesOf] using hb

/-! ### The parent-link walk of publish_path -/

theorem walkPath_out {ns : List TreeNode} {i : ℕ} (fuel : ℕ) (h : ns.get? i = none) :
    walkPath ns (fuel + 1) i = [] := by
  show (match ns.get? i with
    | none => ([] : List Vec2)
    | some n =>
        match n.parent with
        | none => []
        | some j => n.val :: walkPath ns fuel j) = []
  rw [h]

theorem walkPath_root {ns : List TreeNode} {i : ℕ} (fuel : ℕ) {n : TreeNode}
    (hget : ns.get? i = some n) (hpar : n.parent = none) :
    walkPath ns (fuel + 1) i = [] := by
  show (match ns.get? i with
    | none => ([] : List Vec2)
    | some n =>
        match n.parent with
        | none => []
        | some j => n.val :: walkPath ns fuel j) = []
  rw [hget]
  show (match n.parent with
    | none => ([] : List Vec2)
    | some j => n.val :: walkPath ns fuel j) = []
  rw [hpar]

theorem walkPath_step {ns : List TreeNode} {i : ℕ} (fuel : ℕ) {n : TreeNode} {j : ℕ}
    (hget : ns.get? i = some n) (hpar : n.parent = some j) :
    walkPath ns (fuel + 1) i = n.val :: walkPath ns fuel j := by
  show (match ns.get? i with
    | none => ([] : List Vec2)
    | some n =>
        match n.parent with
        | none => []
        | some j => n.val :: walkPath ns fuel j) = n.val :: walkPath ns fuel j
  rw [hget]
  show (match n.parent with
    | none => ([] : List Vec2)
    | some j2 => n.val :: walkPath ns fuel j2) = n.val :: walkPath ns fuel j
  rw [hpar]

theorem pathPairs_singleton (ns : List TreeNode) (x : Vec2) : pathPairs ns [x] := by
  intro k a b h1 h2
  rw [List.get?_cons_succ] at h2
  simp at h2

theorem walkPath_spec {ns : List TreeNode}
    (hroot0 : ∀ h0 : 0 < ns.length, (ns.get ⟨0, h0⟩).parent = none)
    (hwf : ∀ i, ∀ hi : i < ns.length, 0 < i →
      ∃ j, j < i ∧ (ns.get ⟨i, hi⟩).parent = some j) :
    ∀ i, ∀ hi : i < ns.length, ∀ fuel, i < fuel →
      ((ns.get ⟨i, hi⟩).parent = none → walkPath ns fuel i = []) ∧
      (∀ j, (ns.get ⟨i, hi⟩).parent = some j →
        walkPath ns fuel i ≠ [] ∧
        (walkPath ns fuel i).head? = some (ns.get ⟨i, hi⟩).val ∧
        pathPairs ns (walkPath ns fuel i) ∧
        lastChildOfRoot ns (walkPath ns fuel i)) := by
  intro i
  induction i using Nat.strong_induction_on with
  | _ i ih =>
    intro hi fuel hfuel
    obtain ⟨f, rfl⟩ : ∃ f, fuel = f + 1 := ⟨fuel - 1, by omega⟩
    have hget : ns.get? i = some (ns.get ⟨i, hi⟩) := List.get?_eq_get hi
    constructor
    · intro hpar
      exact walkPath_root f hget hpar
    · intro j hpar
      have hij : j < i := by
        by_cases hpos : 0 < i
        · obtain ⟨j2, hj2, hp2⟩ := hwf i hi hpos
          rw [hpar] at hp2
          injection hp2 with h3
          omega
        · have hz : i = 0 := by omega
          subst hz
          rw [hroot0 hi] at hpar
          exact absurd hpar (by simp)
      have hj : j < ns.length := by omega
      rw [walkPath_step f hget hpar]
      rcases hpj : (ns.get ⟨j, hj⟩).parent with _ | j2
      · -- the parent is the root: the walk emits one element and stops
        have hjz : j = 0 := by
          by_contra hne
          obtain ⟨j3, _, hp3⟩ := hwf j hj (by omega)
          rw [hpj] at hp3
          exact absurd hp3 (by simp)
        have hempty : walkPath ns f j = [] :=
          (ih j hij hj f (by omega)).1 hpj
        rw [hempty]
        refine ⟨by simp, by simp, pathPairs_singleton ns _, i, hi, ?_, by simp⟩
        rw [hpar, hjz]
      · -- the parent is itself a non-root node: recurse
        obtain ⟨hne2, hhead2, hpairs2, hlast2⟩ := (ih j hij hj f (by omega)).2 j2 hpj
        obtain ⟨c, t, hct⟩ : ∃ c t, walkPath ns f j = c :: t := by
          rcases hp : walkPath ns f j with _ | ⟨c, t⟩
          · exact absurd hp hne2
          · exact ⟨c, t, rfl⟩
        refine ⟨by simp, by simp, ?_, ?_⟩
        · intro k a b h1 h2
          cases k with
          | zero =>
              rw [List.get?_cons_zero] at h1
              injection h1 with h1
              rw [List.get?_cons_succ, List.get?_zero, hhead2] at h2
              injection h2 with h2
              exact ⟨i, j, hi, hj, hpar, h1.symm, h2.symm⟩
          | succ k2 =>
              rw [List.get?_cons_succ] at h1 h2
              exact hpairs2 k2 a b h1 h2
        · obtain ⟨m, hm, hpm, hlm⟩ := hlast2
          refine ⟨m, hm, hpm, ?_⟩
          rw [hct] at hlm ⊢
          rw [List.getLast?_cons_cons]
          exact hlm

/-! ### Invariant consequences -/

theorem reach_growInv {cfg : RunConfig} {stream : ℕ → ℤ × ℤ} {k : ℕ} {ns : List TreeNode}
    (h : ReachState cfg stream k ns) : growInv cfg ns := by
  induction h with
  | init => exact growInv_init cfg
  | step h hlen hstep ih => exact growStep_growing_inv ih hstep

theorem growInv_treeWF {cfg : RunConfig} {ns : List TreeNode} (h : growInv cfg ns) :
    treeWF cfg.start ns := by
  obtain ⟨h0, hroot, hstart, hrest⟩ := h
  refine ⟨h0, hroot, hstart, ?_⟩
  intro i hi hpos
  obtain ⟨j, hj, hlt, hp, _, _⟩ := hrest i hi hpos
  exact ⟨j, hlt, hp⟩

theorem successInv_wf {cfg : RunConfig} {ns : List TreeNode} (h : successInv cfg ns) :
    (∀ h0 : 0 < ns.length, (ns.get ⟨0, h0⟩).parent = none) ∧
    ∀ i, ∀ hi : i < ns.length, 0 < i → ∃ j, j < i ∧ (ns.get ⟨i, hi⟩).parent = some j := by
  obtain ⟨ns0, j, rfl, ⟨h0, hroot, hstart, hrest⟩, hj⟩ := h
  constructor
  · intro hlen
    rw [get_append_lt _ h0]
    exact hroot
  · intro i hi hpos
    by_cases hlt : i < ns0.length
    · obtain ⟨j2, hj2, hj2lt, hp, _, _⟩ := hrest i hlt hpos
      exact ⟨j2, hj2lt, by rw [get_append_lt _ hlt]; exact hp⟩
    · have hieq : i = ns0.length := by
        simp only [List.length_append, List.length_cons, List.length_nil] at hi
        omega
      subst hieq
      rw [get_append_last]
      exact ⟨j, by omega, rfl⟩

theorem successInv_treeWF {cfg : RunConfig} {ns : List TreeNode} (h : successInv cfg ns) :
    treeWF cfg.start ns := by
  have hwf := successInv_wf h
  obtain ⟨ns0, j, rfl, ⟨h0, hroot, hstart, _⟩, hj⟩ := h
  have hlen0 : 0 < (ns0 ++ [(⟨cfg.goal, some j⟩ : TreeNode)]).length := by
    simp only [List.length_append, List.length_cons, List.length_nil]
    omega
  refine ⟨hlen0, hwf.1 hlen0, ?_, hwf.2⟩
  rw [get_append_lt _ h0]
  exact hstart

/-- Every non-root node other than the appended goal node of a successful
run keeps all growth-node properties: parent link, collision freedom, and
the exact step distance. -/
theorem successInv_inner {cfg : RunConfig} {ns : List TreeNode} (h : successInv cfg ns) :
    ∀ i, ∀ hi : i < ns.length, 0 < i → i + 1 < ns.length →
      ∃ j, ∃ hj : j < ns.length, (ns.get ⟨i, hi⟩).parent = some j ∧
        ¬ anyCollision cfg.obstacles (ns.get ⟨i, hi⟩).val ∧
        (Vec2.sub (ns.get ⟨i, hi⟩).val (ns.get ⟨j, hj⟩).val).norm = |cfg.stepSize| := by
  obtain ⟨ns0, j0, rfl, hgi, hj0⟩ := h
  intro i hi hpos hlt
  have hi0 : i < ns0.length := by
    simp only [List.length_append, List.length_cons, List.length_nil] at hlt
    omega
  obtain ⟨h0, _, _, hrest⟩ := hgi
  obtain ⟨j, hj, hjlt, hp, hc, hs⟩ := hrest i hi0 hpos
  have hj2 : j < (ns0 ++ [(⟨cfg.goal, some j0⟩ : TreeNode)]).length := by
    simp only [List.length_append, List.length_cons, List.length_nil]
    omega
  refine ⟨j, hj2, ?_, ?_, ?_⟩
  · rw [get_append_lt _ hi0]
    exact hp
  · rw [get_append_lt _ hi0]
    exact hc
  · rw [get_append_lt _ hi0, get_append_lt _ hj]
    exact hs

/-- The path facts of a completed run: extraction is nonempty, starts at
the goal position, its adjacent pairs are parent/child pairs, and its last
element is the position of a child of the root. -/
theorem success_extract_facts {cfg : RunConfig} {ns : List TreeNode}
    (hsi : successInv cfg ns) :
    extractPath ns ≠ [] ∧ (extractPath ns).head? = some cfg.goal ∧
    pathPairs ns (extractPath ns) ∧ lastChildOfRoot ns (extractPath ns) := by
  have hwf := successInv_wf hsi
  obtain ⟨ns0, j, rfl, hgi, hj⟩ := hsi
  have hL : ns0.length < (ns0 ++ [(⟨cfg.goal, some j⟩ : TreeNode)]).length := by
    simp only [List.length_append, List.length_cons, List.length_nil]
    omega
  have hgoalnode : (ns0 ++ [(⟨cfg.goal, some j⟩ : TreeNode)]).get ⟨ns0.length, hL⟩ =
      ⟨cfg.goal, some j⟩ := get_append_last _ hL
  have hfuel : ns0.length < (ns0 ++ [(⟨cfg.goal, some j⟩ : TreeNode)]).length := hL
  have spec := (walkPath_spec hwf.1 hwf.2 ns0.length hL
    (ns0 ++ [(⟨cfg.goal, some j⟩ : TreeNode)]).length hfuel).2 j (by rw [hgoalnode])
  have hidx : (ns0 ++ [(⟨cfg.goal, some j⟩ : TreeNode)]).length - 1 = ns0.length := by
    simp only [List.length_append, List.length_cons, List.length_nil]
    omega
  rw [extractPath, hidx]
  refine ⟨spec.1, ?_, spec.2.2.1, spec.2.2.2⟩
  rw [spec.2.1, hgoalnode]

/-! ### Claim C1 -/

/-- C1, counterexample: the claim asserts that every run terminates after
at most nodeLimit growth iterations, returning Success or
Failure(NodeLimitExhausted); in cfgB an obstacle covers the whole map, so
every candidate collides, no iteration ever changes the node list, and the
while-loop (whose condition only watches the node count) is still running
after nodeLimit = 5 iterations — and still after 500. -/
theorem C1_counterexample :
    cfgB.nodeLimit = 5 ∧ runPlanner cfgB streamB 5 = none ∧
      runPlanner cfgB streamB 500 = none :=
  ⟨rfl, runB_none 5, runB_none 500⟩

/-- C1, amended: whenever the growth loop does terminate it returns either
Success or Failure(NodeLimitExhausted), and the node list never exceeds
max(nodeLimit, 1) entries (so at most nodeLimit - 1 node-committing
iterations occur); termination itself is not guaranteed for all
configurations. -/
theorem C1_amended_results (cfg : RunConfig) (stream : ℕ → ℤ × ℤ) (fuel : ℕ)
    (r : RunResult) (h : runPlanner cfg stream fuel = some r) :
    ((∃ ns, r = .success ns) ∨ ∃ ns, r = .failure .nodeLimitExhausted ns) ∧
    r.nodesOf.length ≤ max cfg.nodeLimit 1 := by
  constructor
  · rcases runPlanner_inv h with ⟨ns2, hr, _⟩ | ⟨ns2, hr, _⟩
    · exact Or.inl ⟨ns2, hr⟩
    · exact Or.inr ⟨ns2, hr⟩
  · rw [runPlanner] at h
    exact runLoop_len fuel 0 _ r (by simp) h

/-- C1 witness: the amended statement evaluated on the concrete immediate
success run of cfgA. -/
theorem C1_witness :
    runPlanner cfgA streamA 1 = some (.success nodesA) ∧
    (RunResult.success nodesA).nodesOf.length ≤ max cfgA.nodeLimit 1 :=
  ⟨runA_eval, (C1_amended_results cfgA streamA 1 _ runA_eval).2⟩

/-! ### Claim C2 -/

/-- C2, counterexample: in the successful run of cfgA the extracted path
is the single goal position (3, 0); its last element is not the start
position (0, 0), because the parent walk of publish_path never emits the
root. -/
theorem C2_counterexample :
    runPlanner cfgA streamA 1 = some (.success nodesA) ∧
    extractPath nodesA = [⟨3, 0⟩] ∧
    cfgA.start = ⟨0, 0⟩ ∧
    (extractPath nodesA).getLast? = some ⟨3, 0⟩ ∧
    (⟨3, 0⟩ : Vec2) ≠ ⟨0, 0⟩ := by
  refine ⟨runA_eval, extractPathA_eval, rfl, by rw [extractPathA_eval]; rfl, ?_⟩
  intro h
  injection h with hx hy
  norm_num at hx

/-- C2, amended: for every Success result the extracted path is nonempty,
its first element is the goal position and its consecutive pairs are
exactly parent/child pairs of the tree; but the walk stops at the root
without emitting it, so the last element is the position of a child of the
root, not the start position. -/
theorem C2_amended_path (cfg : RunConfig) (stream : ℕ → ℤ × ℤ) (fuel : ℕ)
    (ns : List TreeNode) (h : runPlanner cfg stream fuel = some (.success ns)) :
    extractPath ns ≠ [] ∧
    (extractPath ns).head? = some cfg.goal ∧
    pathPairs ns (extractPath ns) ∧
    lastChildOfRoot ns (extractPath ns) := by
  rcases runPlanner_inv h with ⟨ns2, hr, hsi⟩ | ⟨ns2, hr, _⟩
  · injection hr with hr2
    subst hr2
    exact success_extract_facts hsi
  · exact absurd hr (by simp)

/-- C2 witness: the amended statement evaluated on the concrete run of
cfgA. -/
theorem C2_witness :
    runPlanner cfgA streamA 1 = some (.success nodesA) ∧
    (extractPath nodesA).head? = some cfgA.goal ∧
    pathPairs nodesA (extractPath nodesA) ∧
    lastChildOfRoot nodesA (extractPath nodesA) := by
  obtain ⟨h1, h2, h3, h4⟩ := C2_amended_path cfgA streamA 1 nodesA runA_eval
  exact ⟨runA_eval, h2, h3, h4⟩

/-! ### Claim C3 -/

/-- C3, counterexample: in the successful run of cfgD the goal node — a
non-root node of the resulting list — sits at (20, 0), strictly inside
the configured rectangle obstacle: the source appends the goal node
without any collision check. -/
theorem C3_counterexample :
    runPlanner cfgD streamD 3 = some (.success nodesD) ∧
    nodesD.getLast? = some ⟨⟨20, 0⟩, some 2⟩ ∧
    (⟨⟨20, 0⟩, some 2⟩ : TreeNode).parent ≠ none ∧
    Obstacle.rectangle 20 0 6 6 0 ∈ cfgD.obstacles ∧
    collides (.rectangle 20 0 6 6 0) ⟨20, 0⟩ := by
  refine ⟨runD_eval, rfl, by simp, by simp [cfgD], ?_⟩
  exact ⟨⟨by norm_num, by norm_num⟩, by norm_num, by norm_num⟩

/-- C3, amended: in a successful run every non-root node except the final
goal node is collision-free against every configured obstacle; the goal
node itself is appended without a collision check and is not covered. -/
theorem C3_amended_collision_free (cfg : RunConfig) (stream : ℕ → ℤ × ℤ) (fuel : ℕ)
    (ns : List TreeNode) (h : runPlanner cfg stream fuel = some (.success ns)) :
    ∀ i, ∀ hi : i < ns.length, 0 < i → i + 1 < ns.length →
      ∀ o ∈ cfg.obstacles, ¬ collides o (ns.get ⟨i, hi⟩).val := by
  rcases runPlanner_inv h with ⟨ns2, hr, hsi⟩ | ⟨ns2, hr, _⟩
  · injection hr with hr2
    subst hr2
    intro i hi hpos hlt o ho hc
    obtain ⟨j, hj, hp, hnc, hs⟩ := successInv_inner hsi i hi hpos hlt
    exact hnc ⟨o, ho, hc⟩
  · exact absurd hr (by simp)

/-- C3 witness: the amended statement evaluated on the concrete run of
cfgD at the first growth node (7, 0). -/
theorem C3_witness :
    runPlanner cfgD streamD 3 = some (.success nodesD) ∧
    ∀ o ∈ cfgD.obstacles, ¬ collides o (nodesD.get ⟨1, by decide⟩).val :=
  ⟨runD_eval,
    C3_amended_collision_free cfgD streamD 3 nodesD runD_eval 1 (by decide)
      (by decide) (by decide)⟩

/-! ### Claim C4 -/

theorem scanFrom_first_goal {g : Vec2} {tol : ℝ} {s : Vec2} :
    ∀ (pre : List TreeNode) (i : ℕ) (acc : Option (ℕ × TreeNode × Vec2 × ℝ))
      (nd : TreeNode) (post : List TreeNode),
      (∀ m ∈ pre, ¬ (Vec2.sub g m.val).norm < tol) →
      (Vec2.sub g nd.val).norm < tol →
      scanFrom g tol s (pre ++ nd :: post) i acc = .goalFound (i + pre.length) := by
  intro pre
  induction pre with
  | nil =>
      intro i acc nd post hpre hnd
      simp only [List.nil_append, List.length_nil]
      rw [scanFrom_cons_goal _ _ _ _ hnd]
      simp
  | cons m pre2 ih =>
      intro i acc nd post hpre hnd
      have hm : ¬ (Vec2.sub g m.val).norm < tol := hpre m (by simp)
      have hpre2 : ∀ m2 ∈ pre2, ¬ (Vec2.sub g m2.val).norm < tol :=
        fun m2 hm2 => hpre m2 (by simp [hm2])
      have hlen : i + (m :: pre2).length = i + 1 + pre2.length := by
        simp only [List.length_cons]
        omega
      rcases acc with _ | ⟨bi, bn, bv, bd⟩
      · rw [List.cons_append, scanFrom_cons_none _ _ _ hm,
          ih (i + 1) _ nd post hpre2 hnd, hlen]
      · by_cases hlt : (Vec2.sub s m.val).norm < bd
        · rw [List.cons_append, scanFrom_cons_lt _ _ hm hlt,
            ih (i + 1) _ nd post hpre2 hnd, hlen]
        · rw [List.cons_append, scanFrom_cons_ge _ _ hm hlt,
            ih (i + 1) _ nd post hpre2 hnd, hlen]

/-- C4: during the per-iteration scan, the moment the visited node is
within goal tolerance — all earlier nodes being outside it — a node at
exactly the goal position is attached as a child of that node (parent index =
its position in the list), appended at the end of the node list, and the
iteration completes as Succeeded; the nodes after it are never visited and
the random sample plays no role. -/
theorem C4_goal_check_interleaved (cfg : RunConfig) (sample : Vec2)
    (pre post : List TreeNode) (nd : TreeNode)
    (hpre : ∀ m ∈ pre, ¬ (Vec2.sub cfg.goal m.val).norm < cfg.goalTolerance)
    (hnd : (Vec2.sub cfg.goal nd.val).norm < cfg.goalTolerance) :
    growStep cfg sample (pre ++ nd :: post) =
      .succeeded ((pre ++ nd :: post) ++ [⟨cfg.goal, some pre.length⟩]) := by
  have hscan := scanFrom_first_goal (s := sample) pre 0 none nd post hpre hnd
  rw [growStep_goalFound hscan]
  norm_num

/-- C4 witness: a three-node list whose middle node is the first within
tolerance; the goal node is attached to it (parent index 1) and the later
node is never scanned. -/
theorem C4_witness :
    growStep cfgW ⟨5, 5⟩ ([⟨⟨0, 0⟩, none⟩] ++ ⟨⟨3 / 2, 0⟩, some 0⟩ :: [⟨⟨9, 0⟩, some 0⟩]) =
      .succeeded (([⟨⟨0, 0⟩, none⟩] ++ ⟨⟨3 / 2, 0⟩, some 0⟩ :: [⟨⟨9, 0⟩, some 0⟩]) ++
        [⟨cfgW.goal, some 1⟩]) := by
  have h := C4_goal_check_interleaved cfgW ⟨5, 5⟩ [⟨⟨0, 0⟩, none⟩] [⟨⟨9, 0⟩, some 0⟩]
    ⟨⟨3 / 2, 0⟩, some 0⟩ ?_ ?_
  · exact h
  · intro m hm
    have hm2 : m = ⟨⟨0, 0⟩, none⟩ := by simpa using hm
    subst hm2
    show ¬ (Vec2.sub ⟨2, 0⟩ ⟨0, 0⟩).norm < (1 : ℝ)
    rw [norm_sub_eval (r := 2) (by norm_num) (by norm_num)]
    norm_num
  · show (Vec2.sub ⟨2, 0⟩ ⟨3 / 2, 0⟩).norm < (1 : ℝ)
    rw [norm_sub_eval (r := 1 / 2) (by norm_num) (by norm_num)]
    norm_num

/-! ### Claim C5 -/

/-- C5: the collision test is a pure function of the obstacle and point;
for a Circle it holds iff the Euclidean distance from the point to the
center is strictly below the radius (equivalently, squared distance below
squared radius for nonnegative radius), for a Rectangle iff the point lies
strictly inside the open axis-aligned box around the center; points on the
circle boundary or on the rectangle boundary are not collisions. -/
theorem C5_collides_characterization (p : Vec2) (cx cy r w h rot : ℝ) :
    (collides (.circle cx cy r) p ↔ euclideanDistance p ⟨cx, cy⟩ < r) ∧
    (0 ≤ r → (collides (.circle cx cy r) p ↔
      (p.x - cx) ^ 2 + (p.y - cy) ^ 2 < r ^ 2)) ∧
    (collides (.rectangle cx cy w h rot) p ↔
      p.x ∈ Set.Ioo (cx - w / 2) (cx + w / 2) ∧
      p.y ∈ Set.Ioo (cy - h / 2) (cy + h / 2)) ∧
    (euclideanDistance p ⟨cx, cy⟩ = r → ¬ collides (.circle cx cy r) p) ∧
    ((p.x = cx - w / 2 ∨ p.x = cx + w / 2 ∨ p.y = cy - h / 2 ∨ p.y = cy + h / 2) →
      ¬ collides (.rectangle cx cy w h rot) p) := by
  refine ⟨Iff.rfl, ?_, ?_, ?_, ?_⟩
  · intro hr
    show Real.sqrt ((p.x - cx) ^ 2 + (p.y - cy) ^ 2) < r ↔ _
    rcases eq_or_lt_of_le hr with hr0 | hr0
    · subst hr0
      constructor
      · intro hc
        exact absurd hc (not_lt.2 (Real.sqrt_nonneg _))
      · intro hc
        exfalso
        nlinarith [sq_nonneg (p.x - cx), sq_nonneg (p.y - cy)]
    · exact Real.sqrt_lt' hr0
  · show ((cx - w / 2 < p.x ∧ p.x < cx + w / 2) ∧
      (cy - h / 2 < p.y ∧ p.y < cy + h / 2)) ↔ _
    simp [Set.mem_Ioo]
  · intro he hc
    have hc2 : euclideanDistance p ⟨cx, cy⟩ < r := hc
    rw [he] at hc2
    exact lt_irrefl r hc2
  · intro hx hc
    obtain ⟨⟨h1, h2⟩, h3, h4⟩ := hc
    rcases hx with hx | hx | hx | hx <;> linarith

/-- C5 witness: the characterization evaluated on concrete obstacles: the
origin is inside the circle of radius 5 at (3, 0), and the point (1, 5) on
the boundary line x = 0 + 2/2 of the unit-square rectangle does not
collide. -/
theorem C5_witness :
    collides (.circle 3 0 5) ⟨0, 0⟩ ∧ ¬ collides (.rectangle 0 0 2 2 0) ⟨1, 5⟩ := by
  constructor
  · exact ((C5_collides_characterization ⟨0, 0⟩ 3 0 5 2 2 0).2.1 (by norm_num)).mpr
      (by norm_num)
  · exact (C5_collides_characterization ⟨1, 5⟩ 0 0 1 2 2 0).2.2.2.2 (by right; left; norm_num)

/-! ### Claim C6 -/

/-- C6: at every point during a run (every reachable node list) and for
the final node list of every terminated run, successful or failed, the
node list forms a tree rooted at the start position: the head has no
parent and carries the start position, and every other node has exactly
one parent, occurring strictly earlier in the list. -/
theorem C6_tree_wellformed (cfg : RunConfig) (stream : ℕ → ℤ × ℤ) :
    (∀ k ns, ReachState cfg stream k ns → treeWF cfg.start ns) ∧
    ∀ fuel r, runPlanner cfg stream fuel = some r → treeWF cfg.start r.nodesOf := by
  constructor
  · intro k ns hr
    exact growInv_treeWF (reach_growInv hr)
  · intro fuel r h
    rcases runPlanner_inv h with ⟨ns2, rfl, hsi⟩ | ⟨ns2, rfl, hgi⟩
    · exact successInv_treeWF hsi
    · exact growInv_treeWF hgi

/-- C6 witness: well-formedness of the concrete successful run of cfgA. -/
theorem C6_witness : treeWF cfgA.start (RunResult.success nodesA).nodesOf :=
  (C6_tree_wellformed cfgA streamA).2 1 _ runA_eval

/-! ### Claim C7 -/

/-- C7: with a nonnegative step size, every non-root non-goal node of a
terminated run lies at Euclidean distance exactly stepSize from its
parent (exact real arithmetic; the unit vector is only formed when the
nearest distance is nonzero, which is what makes the committed step length
exact); the goal node is exempt and is placed exactly at the goal. -/
theorem C7_step_size (cfg : RunConfig) (stream : ℕ → ℤ × ℤ) (fuel : ℕ)
    (hstep : 0 ≤ cfg.stepSize) :
    (∀ ns, runPlanner cfg stream fuel = some (.success ns) →
      (∀ i, ∀ hi : i < ns.length, 0 < i → i + 1 < ns.length →
        ∃ j, ∃ hj : j < ns.length, (ns.get ⟨i, hi⟩).parent = some j ∧
          (Vec2.sub (ns.get ⟨i, hi⟩).val (ns.get ⟨j, hj⟩).val).norm = cfg.stepSize) ∧
      ∃ nd, ns.getLast? = some nd ∧ nd.val = cfg.goal) ∧
    ∀ reason ns, runPlanner cfg stream fuel = some (.failure reason ns) →
      ∀ i, ∀ hi : i < ns.length, 0 < i →
        ∃ j, ∃ hj : j < ns.length, (ns.get ⟨i, hi⟩).parent = some j ∧
          (Vec2.sub (ns.get ⟨i, hi⟩).val (ns.get ⟨j, hj⟩).val).norm = cfg.stepSize := by
  constructor
  · intro ns h
    rcases runPlanner_inv h with ⟨ns2, hr, hsi⟩ | ⟨ns2, hr, _⟩
    · injection hr with hr2
      subst hr2
      constructor
      · intro i hi hpos hlt
        obtain ⟨j, hj, hp, _, hs⟩ := successInv_inner hsi i hi hpos hlt
        rw [abs_of_nonneg hstep] at hs
        exact ⟨j, hj, hp, hs⟩
      · obtain ⟨ns0, j, rfl, _, _⟩ := hsi
        exact ⟨⟨cfg.goal, some j⟩, List.getLast?_concat ns0, rfl⟩
    · exact absurd hr (by simp)
  · intro reason ns h
    rcases runPlanner_inv h with ⟨ns2, hr, _⟩ | ⟨ns2, hr, hgi⟩
    · exact absurd hr (by simp)
    · injection hr with hr1 hr2
      subst hr2
      intro i hi hpos
      obtain ⟨h0, _, _, hrest⟩ := hgi
      obtain ⟨j, hj, _, hp, _, hs⟩ := hrest i hi hpos
      rw [abs_of_nonneg hstep] at hs
      exact ⟨j, hj, hp, hs⟩

/-- C7 witness: in the concrete run of cfgD the first growth node (7, 0)
is exactly stepSize = 7 away from its parent, the root. -/
theorem C7_witness :
    runPlanner cfgD streamD 3 = some (.success nodesD) ∧
    ∃ j, ∃ hj : j < nodesD.length, (nodesD.get ⟨1, by decide⟩).parent = some j ∧
      (Vec2.sub (nodesD.get ⟨1, by decide⟩).val (nodesD.get ⟨j, hj⟩).val).norm =
        cfgD.stepSize :=
  ⟨runD_eval,
    ((C7_step_size cfgD streamD 3 (by norm_num [cfgD])).1 nodesD runD_eval).1 1
      (by decide) (by decide) (by decide)⟩

/-! ### Claim C8 -/

/-- C8: each growth iteration is atomic: its resulting node list is either
exactly the input list (a no-op iteration: collision, zero nearest
distance, or empty scan) or the input list with exactly one node appended;
in both cases every preexisting node — hence every preexisting parent
link, and with it the derived children relation — is unchanged. -/
theorem C8_iteration_atomic (cfg : RunConfig) (sample : Vec2) (ns : List TreeNode)
    (res : StepResult) (h : growStep cfg sample ns = res) :
    (res.nodesOfStep = ns ∨ ∃ nd, res.nodesOfStep = ns ++ [nd]) ∧
    ∀ i, ∀ hi : i < ns.length, ∃ hi2 : i < res.nodesOfStep.length,
      res.nodesOfStep.get ⟨i, hi2⟩ = ns.get ⟨i, hi⟩ := by
  subst h
  rcases growStep_shape cfg sample ns with hsh | ⟨nd, hsh⟩ | ⟨nd, hsh⟩ <;> rw [hsh]
  · exact ⟨Or.inl rfl, fun i hi => ⟨hi, rfl⟩⟩
  · refine ⟨Or.inr ⟨nd, rfl⟩, ?_⟩
    intro i hi
    have hi2 : i < (ns ++ [nd]).length := by simpa using Nat.lt_succ_of_lt hi
    exact ⟨hi2, get_append_lt nd hi hi2⟩
  · refine ⟨Or.inr ⟨nd, rfl⟩, ?_⟩
    intro i hi
    have hi2 : i < (ns ++ [nd]).length := by simpa using Nat.lt_succ_of_lt hi
    exact ⟨hi2, get_append_lt nd hi hi2⟩

/-- C8 witness: the atomicity statement evaluated on the concrete goal
iteration of cfgA, which appends exactly the goal node. -/
theorem C8_witness :
    growStep cfgA (Vec2.ofSample (streamA 0)) [⟨cfgA.start, none⟩] = .succeeded nodesA ∧
    (nodesA = [⟨cfgA.start, none⟩] ∨ ∃ nd, nodesA = [⟨cfgA.start, none⟩] ++ [nd]) :=
  ⟨growA_eval,
    (C8_iteration_atomic cfgA (Vec2.ofSample (streamA 0)) [⟨cfgA.start, none⟩] _
      growA_eval).1⟩

/-! ### Claim C9 -/

/-- C9: in every successful run the goal node is the last element of the
node list in insertion order — it carries exactly the goal position and
has a parent — so the path extraction of publish_path, which starts from
the last list element, starts from the goal node and its first emitted
position is the goal. -/
theorem C9_goal_last (cfg : RunConfig) (stream : ℕ → ℤ × ℤ) (fuel : ℕ)
    (ns : List TreeNode) (h : runPlanner cfg stream fuel = some (.success ns)) :
    ∃ nd, ns.getLast? = some nd ∧ nd.val = cfg.goal ∧ (∃ j, nd.parent = some j) ∧
      (extractPath ns).head? = some cfg.goal := by
  rcases runPlanner_inv h with ⟨ns2, hr, hsi⟩ | ⟨ns2, hr, _⟩
  · injection hr with hr2
    subst hr2
    have hfacts := success_extract_facts hsi
    obtain ⟨ns0, j, rfl, _, _⟩ := hsi
    exact ⟨⟨cfg.goal, some j⟩, List.getLast?_concat ns0, rfl, ⟨j, rfl⟩, hfacts.2.1⟩
  · exact absurd hr (by simp)

/-- C9 witness: the last-node facts evaluated on the concrete run of
cfgA. -/
theorem C9_witness :
    runPlanner cfgA streamA 1 = some (.success nodesA) ∧
    ∃ nd, nodesA.getLast? = some nd ∧ nd.val = cfgA.goal ∧ (∃ j, nd.parent = some j) ∧
      (extractPath nodesA).head? = some cfgA.goal :=
  ⟨runA_eval, C9_goal_last cfgA streamA 1 nodesA runA_eval⟩

/-! ### Claim C10 -/

/-- C10: node positions are never clamped or checked against the map
bounds: there is a configuration and an in-range random-sample stream
whose run commits a non-root node lying strictly outside the sampling
rectangle, because the steered candidate is accepted whenever it avoids
the obstacles (cfgE: map half-extents (1, 1), step size 5, committed node
at (-5, 0)). -/
theorem C10_no_bounds_check :
    ∃ (cfg : RunConfig) (stream : ℕ → ℤ × ℤ) (fuel : ℕ) (ns : List TreeNode),
      (∀ k, sampleInRange cfg (stream k)) ∧
      runPlanner cfg stream fuel = some (.failure .nodeLimitExhausted ns) ∧
      ∃ i, ∃ hi : i < ns.length, 0 < i ∧
        ((ns.get ⟨i, hi⟩).val.x < -(cfg.mapSize.1 : ℝ) ∨
         (cfg.mapSize.1 : ℝ) < (ns.get ⟨i, hi⟩).val.x ∨
         (ns.get ⟨i, hi⟩).val.y < -(cfg.mapSize.2 : ℝ) ∨
         (cfg.mapSize.2 : ℝ) < (ns.get ⟨i, hi⟩).val.y) := by
  refine ⟨cfgE, streamE, 2, nodesE, ?_, runE_eval, 1, by decide, by decide, ?_⟩
  · intro k
    refine ⟨?_, ?_, ?_, ?_⟩
    · show -(1 : ℤ) ≤ -1
      decide
    · show (-1 : ℤ) < 1
      decide
    · show -(1 : ℤ) ≤ 0
      decide
    · show (0 : ℤ) < 1
      decide
  · left
    show (-5 : ℝ) < -((1 : ℤ) : ℝ)
    norm_num

end RRT2D
